import Mathlib

/-!
Shallow embedding of `src/trading_time_series.py` (class `TradingTimeSeries`).

Modelling conventions:
* A pandas `Series` indexed by a `DatetimeIndex` is embedded as a
  `List (Nat × ℚ)`: the key is the timestamp (an abstract point on the
  date line, encoded as a natural number), the value a rational number
  standing for the float value.  A *valid* series has strictly increasing
  keys, matching a sorted, duplicate-free `DatetimeIndex`.
* The external collaborators (`yfinance.download`, pandas `resample`) are
  embedded as oracle function parameters, as the spec treats them
  ("excluded as external collaborators ... treated as an opaque function").
* Float results that can be `NaN` (the Pearson correlation) are embedded
  as `Option ℝ`, `none` standing for `NaN`; irrational-valued functions
  (`corr`, `mutual_info_score`) land in `ℝ` via `Real.sqrt` / `Real.log`.
-/

/-- The dtype of a pandas index, as far as the constructor check
`isinstance(self.data.index, pd.DatetimeIndex)` can distinguish it.
`range` is the default `RangeIndex` of a bare `pd.Series()`. -/
inductive IndexKind where
  | datetime
  | range
  | integer
  | string
deriving DecidableEq, Repr

/-- A raw pandas `Series` as handed to the `TradingTimeSeries` constructor:
the dtype of its index together with its (key, value) entries. -/
structure RawSeries where
  kind : IndexKind
  entries : List (Nat × ℚ)
deriving DecidableEq, Repr

/-- A successfully constructed `TradingTimeSeries` holds the series it was
built from (field `data` of the dataclass). -/
structure TradingTimeSeries where
  data : RawSeries
deriving DecidableEq, Repr

/-- `__post_init__`: constructing a `TradingTimeSeries` raises
`ValueError("Data must be indexed by a DateTimeIndex")` unless the index is
a `DatetimeIndex`; the embedding returns `Except.error` for the raise. -/
def mkTradingTimeSeries (data : RawSeries) : Except String TradingTimeSeries :=
  if data.kind = IndexKind.datetime then Except.ok ⟨data⟩
  else Except.error "Data must be indexed by a DateTimeIndex"

/-- The dataclass default `field(default_factory=pd.Series)`: an empty
series whose index is the default `RangeIndex`, not a `DatetimeIndex`. -/
def defaultRawSeries : RawSeries := ⟨IndexKind.range, []⟩

/-- Constructing `TradingTimeSeries()` with no argument: the default
factory value is handed to `__post_init__`. -/
def mkDefaultTradingTimeSeries : Except String TradingTimeSeries :=
  mkTradingTimeSeries defaultRawSeries

/-- `term_structure_type`: classifies a term-structure sequence by its
first (`iloc[0]`) and last (`iloc[-1]`) values.  The `headD`/`getLastD`
defaults are never consulted: both branches using them sit under the
`length < 2` guard. -/
def term_structure_type (ts : List ℚ) : String :=
  if ts.length < 2 then "undefined"
  else if ts.headD 0 < ts.getLastD 0 then "contango"
  else if ts.getLastD 0 < ts.headD 0 then "backwardation"
  else "undefined"

/-- The inner join `pd.concat([self.data, other.data], axis=1, join="inner")`
on two series with sorted duplicate-free indexes: the rows whose key occurs
in both series, ordered by key, as a sorted-merge. -/
def innerJoin : List (Nat × ℚ) → List (Nat × ℚ) → List (Nat × ℚ × ℚ)
  | [], _ => []
  | _ :: _, [] => []
  | (t₁, x) :: as, (t₂, y) :: bs =>
    if t₁ < t₂ then innerJoin as ((t₂, y) :: bs)
    else if t₂ < t₁ then innerJoin ((t₁, x) :: as) bs
    else (t₁, x, y) :: innerJoin as bs
termination_by a b => a.length + b.length

/-- The two-column `DataFrame` produced by `align_with`: its column names
(set by `aligned_data.columns = ["Series1", "Series2"]`) and its rows. -/
structure AlignedFrame where
  col1 : String
  col2 : String
  rows : List (Nat × ℚ × ℚ)
deriving DecidableEq, Repr

/-- `align_with`: inner-joins the two series by date and renames the
columns to `"Series1"`, `"Series2"`. -/
def align_with (a b : List (Nat × ℚ)) : AlignedFrame :=
  ⟨"Series1", "Series2", innerJoin a b⟩

/-- The eight fixed VIX futures ticker codes queried by
`vix_futures_term_structure`, in contract-month order. -/
def vixFuturesTickers : List String :=
  ["VX1", "VX2", "VX3", "VX4", "VX5", "VX6", "VX7", "VX8"]

/-- `vix_futures_term_structure(date)`.  `download t d` embeds
`yf.download(t, start=d, end=d)` followed by `["Close"].iloc[0]`:
`none` when the downloaded frame is empty (the `if not vix_future.empty`
guard), otherwise the first close price.  The dict insertion order keeps
contract-month order; the final index assignment renames the kept entries
to `"Month 1" .. "Month K"`. -/
def vix_futures_term_structure (download : String → String → Option ℚ)
    (date : String) : List (String × ℚ) :=
  let found := vixFuturesTickers.filterMap
    (fun t => (download (t ++ "=F") date).map (fun c => (t, c)))
  (found.enum).map (fun p => ("Month " ++ toString (p.1 + 1), p.2.2))

/-- `generate_vix_term_structure_series`: for each date of the index (turned
into a string by `strftime`, embedded as the abstract `dateStr`), fetch the
term structure and classify it; the resulting series keeps the original
index.  `term_structure_type` reads the values (`iloc`) of the structure. -/
def generate_vix_term_structure_series (download : String → String → Option ℚ)
    (dateStr : Nat → String) (data : List (Nat × ℚ)) : List (Nat × String) :=
  data.map (fun p =>
    (p.1, term_structure_type
      ((vix_futures_term_structure download (dateStr p.1)).map Prod.snd)))

/-- Mean of a column (`0` for the empty column, where pandas would give
`NaN`; the mean of an empty column is never consulted by the claims). -/
def colMean (xs : List ℚ) : ℚ := xs.sum / xs.length

/-- The column centred at its mean. -/
def centered (xs : List ℚ) : List ℚ := xs.map (fun v => v - colMean xs)

/-- Sum of products of centred deviations: the (unnormalised) covariance
numerator of Pearson correlation. -/
def covSum (xs ys : List ℚ) : ℚ :=
  (((centered xs).zip (centered ys)).map (fun p => p.1 * p.2)).sum

/-- Sum of squared centred deviations: the (unnormalised) variance. -/
def varSum (xs : List ℚ) : ℚ :=
  ((centered xs).map (fun d => d ^ 2)).sum

/-- First-value column of the aligned frame (`aligned_data["Series1"]`). -/
def col1Of (f : AlignedFrame) : List ℚ := f.rows.map (fun r => r.2.1)

/-- Second-value column of the aligned frame (`aligned_data["Series2"]`). -/
def col2Of (f : AlignedFrame) : List ℚ := f.rows.map (fun r => r.2.2)

/-- `compute_correlation`: Pearson correlation of the two aligned columns,
`cov / sqrt(var₁ · var₂)`.  Pandas returns `NaN` (here: `none`) exactly when
that quotient is `0/0` or `x/0`, i.e. when an aligned column has zero
variance — which subsumes alignments of fewer than two rows.  The
normalising factors `1/(n-1)` of covariance and variance cancel in the
quotient and are omitted. -/
noncomputable def compute_correlation (a b : List (Nat × ℚ)) : Option ℝ :=
  if varSum (col1Of (align_with a b)) = 0 ∨ varSum (col2Of (align_with a b)) = 0
  then none
  else some ((covSum (col1Of (align_with a b)) (col2Of (align_with a b)) : ℝ) /
    Real.sqrt ((varSum (col1Of (align_with a b)) : ℝ) *
      (varSum (col2Of (align_with a b)) : ℝ)))

/-- The bucket index `pd.cut` with `bins` right-closed equal-width
intervals over `[mn, mx]` assigns to `v ∈ [mn, mx]`: the interior edges are
`mn + i·(mx-mn)/bins`, the outermost edges are pushed outward by 0.1% so
`v = mn` lands in bucket `0`.  When the column is constant (`mn = mx`)
pandas widens the range by `±0.001` around it, putting every value in the
middle bucket `⌈bins/2⌉ - 1`.  The `min`/`Int.toNat` clamps never bind for
`v ∈ [mn, mx]`. -/
def binIdx (mn mx : ℚ) (bins : ℕ) (v : ℚ) : ℕ :=
  if mn = mx then (⌈(bins : ℚ) / 2⌉ - 1).toNat
  else min (bins - 1) (⌈(v - mn) * bins / (mx - mn)⌉ - 1).toNat

/-- `pd.cut(column, bins=bins, labels=False)`: each value replaced by its
bucket index, the bucket edges computed from the column's own min and
max. -/
def binColumn (bins : ℕ) (xs : List ℚ) : List ℕ :=
  match xs with
  | [] => []
  | x :: rest =>
    let mn := rest.foldl min x
    let mx := rest.foldl max x
    (x :: rest).map (binIdx mn mx bins)

/-- `sklearn.metrics.mutual_info_score` on two equal-length label
sequences, zipped into one list of label pairs: the discrete mutual
information `∑ p_ij · log (p_ij / (p_i · p_j))` in nats, the sum running
over the label pairs that occur (empty cells contribute nothing). -/
noncomputable def mutualInfoScore (l : List (ℕ × ℕ)) : ℝ :=
  ∑ p in l.toFinset,
    ((l.count p : ℝ) / (l.length : ℝ)) *
      Real.log (((l.length : ℝ) * (l.count p : ℝ)) /
        (((l.map Prod.fst).count p.1 : ℝ) * ((l.map Prod.snd).count p.2 : ℝ)))

/-- `compute_mutual_information`: bins each aligned column independently
with `pd.cut` and returns the mutual information of the two label
sequences. -/
noncomputable def compute_mutual_information (a b : List (Nat × ℚ))
    (bins : ℕ) : ℝ :=
  mutualInfoScore ((binColumn bins (col1Of (align_with a b))).zip
    (binColumn bins (col2Of (align_with a b))))

/-- The `vix_tickers` mapping of `fetch_vix_series`. -/
def vixTickerMap : List (String × String) :=
  [("regular", "^VIX"), ("vix9d", "^VIX9D"), ("vix1d", "^VIX1D")]

/-- Smallest key of the index (`self.data.index.min()`); `0` for the empty
index, where pandas would give `NaT`. -/
def minKey (l : List (Nat × ℚ)) : Nat :=
  match l.map Prod.fst with
  | [] => 0
  | k :: ks => ks.foldl min k

/-- Largest key of the index (`self.data.index.max()`). -/
def maxKey (l : List (Nat × ℚ)) : Nat :=
  match l.map Prod.fst with
  | [] => 0
  | k :: ks => ks.foldl max k

/-- `fetch_vix_series`: checks `vix_type` against the ticker map and only
then downloads the mapped ticker over the date range of the index.
`download ticker start end` embeds `yf.download(...)["Close"]` (re-indexed
by `pd.to_datetime`, the identity on an already date-typed index);
`dateStr` embeds `strftime("%Y-%m-%d")`.  The raised
`ValueError` message is embedded with its quotes stripped. -/
def fetch_vix_series (download : String → String → String → List (Nat × ℚ))
    (dateStr : Nat → String) (data : List (Nat × ℚ)) (vix_type : String) :
    Except String (List (Nat × ℚ)) :=
  match vixTickerMap.lookup vix_type with
  | none => Except.error "Invalid vix_type. Choose from regular, vix9d, or vix1d."
  | some ticker =>
    Except.ok (download ticker (dateStr (minKey data)) (dateStr (maxKey data)))

/-- The mutable state a method call can see: the receiver's series and (for
binary methods) the argument's series.  Each method below is embedded as a
state transformer returning its value together with the final state; the
Python bodies assign only to local variables (never to `self.data` or
`other.data`), which the transformers mirror. -/
structure MethodState where
  selfData : List (Nat × ℚ)
  otherData : List (Nat × ℚ)
deriving DecidableEq, Repr

/-- `align_with` as a state transformer. -/
def align_with_st (s : MethodState) : AlignedFrame × MethodState :=
  (align_with s.selfData s.otherData, s)

/-- `compute_correlation` as a state transformer. -/
noncomputable def compute_correlation_st (s : MethodState) :
    Option ℝ × MethodState :=
  (compute_correlation s.selfData s.otherData, s)

/-- `compute_mutual_information` as a state transformer. -/
noncomputable def compute_mutual_information_st (s : MethodState)
    (bins : ℕ) : ℝ × MethodState :=
  (compute_mutual_information s.selfData s.otherData bins, s)

/-- `resample`: `self.data.resample(rule).mean()` is delegated wholesale to
the external numeric library, embedded as the oracle `resampleMean`; a new
`TradingTimeSeries` is built from its result.  As a state transformer it
returns the new instance's data. -/
def resample_st (resampleMean : String → List (Nat × ℚ) → List (Nat × ℚ))
    (s : MethodState) (rule : String) : List (Nat × ℚ) × MethodState :=
  (resampleMean rule s.selfData, s)

/-- `fetch_vix_series` as a state transformer. -/
def fetch_vix_series_st (download : String → String → String → List (Nat × ℚ))
    (dateStr : Nat → String) (s : MethodState) (vix_type : String) :
    Except String (List (Nat × ℚ)) × MethodState :=
  (fetch_vix_series download dateStr s.selfData vix_type, s)

/-- `vix_futures_term_structure` as a state transformer (its body touches
only locals and the network oracle, never the receiver's series). -/
def vix_futures_term_structure_st (download : String → String → Option ℚ)
    (s : MethodState) (date : String) : List (String × ℚ) × MethodState :=
  (vix_futures_term_structure download date, s)

/-- `term_structure_type` as a state transformer. -/
def term_structure_type_st (s : MethodState) (ts : List ℚ) :
    String × MethodState :=
  (term_structure_type ts, s)

/-- `generate_vix_term_structure_series` as a state transformer. -/
def generate_vix_term_structure_series_st
    (download : String → String → Option ℚ) (dateStr : Nat → String)
    (s : MethodState) : List (Nat × String) × MethodState :=
  (generate_vix_term_structure_series download dateStr s.selfData, s)

/-! ## Helper lemmas -/

theorem map_snd_filterMap_pair {α β : Type} (f : α → Option β) (l : List α) :
    (l.filterMap (fun t => (f t).map (fun c => (t, c)))).map Prod.snd =
      l.filterMap f := by
  induction l with
  | nil => rfl
  | cons a l ih =>
    cases h : f a <;> simp [List.filterMap_cons, h, ih]

theorem length_filterMap_eq_countP {α β : Type} (f : α → Option β) (l : List α) :
    (l.filterMap f).length = l.countP (fun t => (f t).isSome) := by
  induction l with
  | nil => rfl
  | cons a l ih =>
    cases h : f a <;> simp [List.filterMap_cons, h, List.countP_cons, ih]

theorem term_structure_type_cases (ts : List ℚ) :
    term_structure_type ts = "contango" ∨
      term_structure_type ts = "backwardation" ∨
      term_structure_type ts = "undefined" := by
  unfold term_structure_type
  split_ifs <;> simp

/-! ## The claims -/

/-- C1: `term_structure_type` returns `"undefined"` for sequences with
fewer than 2 points or equal first and last values, `"contango"` when the
first value is strictly below the last, `"backwardation"` when it is
strictly above; the classification depends only on the first and last
values, never on intermediate points. -/
theorem term_structure_type_spec (l m : List ℚ) :
    ((l.length < 2 ∨ l.headD 0 = l.getLastD 0) →
      term_structure_type l = "undefined")
    ∧ (2 ≤ l.length → l.headD 0 < l.getLastD 0 →
      term_structure_type l = "contango")
    ∧ (2 ≤ l.length → l.getLastD 0 < l.headD 0 →
      term_structure_type l = "backwardation")
    ∧ (2 ≤ l.length → 2 ≤ m.length → l.headD 0 = m.headD 0 →
      l.getLastD 0 = m.getLastD 0 →
      term_structure_type l = term_structure_type m) := by
  refine ⟨?_, ?_, ?_, ?_⟩
  · rintro (h | h)
    · unfold term_structure_type
      rw [if_pos h]
    · unfold term_structure_type
      by_cases hlen : l.length < 2
      · rw [if_pos hlen]
      · rw [if_neg hlen, if_neg (by rw [h]; exact lt_irrefl _),
          if_neg (by rw [h]; exact lt_irrefl _)]
  · intro hl h
    unfold term_structure_type
    rw [if_neg (by omega), if_pos h]
  · intro hl h
    unfold term_structure_type
    rw [if_neg (by omega), if_neg (not_lt_of_lt h), if_pos h]
  · intro hl hm hh ht
    have hl2 : ¬ l.length < 2 := by omega
    have hm2 : ¬ m.length < 2 := by omega
    simp only [term_structure_type, if_neg hl2, if_neg hm2, hh, ht]

/-- C2: for every date, `vix_futures_term_structure` queries the eight
fixed monthly contracts in month order, keeps exactly the contracts whose
download is non-empty, and labels the kept prices `"Month 1"`..`"Month K"`
in contract-month order, renumbering over gaps. -/
theorem vix_futures_term_structure_spec
    (download : String → String → Option ℚ) (date : String) :
    (vix_futures_term_structure download date).map Prod.snd =
      vixFuturesTickers.filterMap (fun t => download (t ++ "=F") date)
    ∧ (vix_futures_term_structure download date).length =
      vixFuturesTickers.countP (fun t => (download (t ++ "=F") date).isSome)
    ∧ (vix_futures_term_structure download date).map Prod.fst =
      (List.range (vix_futures_term_structure download date).length).map
        (fun i => "Month " ++ toString (i + 1))
    ∧ (vix_futures_term_structure download date).length ≤ 8 := by
  refine ⟨?_, ?_, ?_, ?_⟩
  · unfold vix_futures_term_structure
    rw [List.map_map]
    have e1 : (Prod.snd ∘ fun p : Nat × String × ℚ =>
        ("Month " ++ toString (p.1 + 1), p.2.2)) =
        (Prod.snd ∘ (Prod.snd : Nat × String × ℚ → String × ℚ)) := rfl
    rw [e1, ← List.map_map, List.enum_map_snd]
    exact map_snd_filterMap_pair _ _
  · unfold vix_futures_term_structure
    rw [List.length_map, List.enum_length, length_filterMap_eq_countP]
    apply List.countP_congr
    intro t _
    cases h : download (t ++ "=F") date <;> simp [h]
  · unfold vix_futures_term_structure
    rw [List.map_map, List.length_map, List.enum_length]
    have e1 : (Prod.fst ∘ fun p : Nat × String × ℚ =>
        ("Month " ++ toString (p.1 + 1), p.2.2)) =
        ((fun i => "Month " ++ toString (i + 1)) ∘
          (Prod.fst : Nat × String × ℚ → Nat)) := rfl
    rw [e1, ← List.map_map, List.enum_map_fst]
  · unfold vix_futures_term_structure
    rw [List.length_map, List.enum_length]
    calc (vixFuturesTickers.filterMap fun t =>
          (download (t ++ "=F") date).map fun c => (t, c)).length
        ≤ vixFuturesTickers.length := List.length_filterMap_le _ _
      _ = 8 := rfl

/-- C6: `generate_vix_term_structure_series` returns a series of the same
length as the source, every value one of the three classification
labels. -/
theorem generate_vix_term_structure_series_spec
    (download : String → String → Option ℚ) (dateStr : Nat → String)
    (data : List (Nat × ℚ)) :
    (generate_vix_term_structure_series download dateStr data).length =
      data.length
    ∧ ∀ p ∈ generate_vix_term_structure_series download dateStr data,
        p.2 = "contango" ∨ p.2 = "backwardation" ∨ p.2 = "undefined" := by
  constructor
  · simp [generate_vix_term_structure_series]
  · intro p hp
    unfold generate_vix_term_structure_series at hp
    rcases List.mem_map.mp hp with ⟨q, _, hq⟩
    rw [← hq]
    exact term_structure_type_cases _

/-- C7: construction raises the invalid-index error exactly when the index
is not a `DatetimeIndex`, before any method can run (no
`TradingTimeSeries` value is produced); a datetime-indexed series
constructs without raising. -/
theorem mkTradingTimeSeries_spec (s : RawSeries) :
    (s.kind = IndexKind.datetime →
      mkTradingTimeSeries s = Except.ok ⟨s⟩)
    ∧ (s.kind ≠ IndexKind.datetime →
      mkTradingTimeSeries s =
        Except.error "Data must be indexed by a DateTimeIndex") := by
  constructor <;> intro h <;> simp [mkTradingTimeSeries, h]

/-- C10: the no-argument constructor always raises (the default value is an
empty series with a `RangeIndex`), and every successfully constructed
instance holds a datetime-indexed series. -/
theorem mkDefault_raises_and_invariant :
    mkDefaultTradingTimeSeries =
      Except.error "Data must be indexed by a DateTimeIndex"
    ∧ ∀ (s : RawSeries) (t : TradingTimeSeries),
        mkTradingTimeSeries s = Except.ok t →
          t.data.kind = IndexKind.datetime := by
  constructor
  · rfl
  · intro s t h
    unfold mkTradingTimeSeries at h
    by_cases hk : s.kind = IndexKind.datetime
    · rw [if_pos hk] at h
      cases h
      exact hk
    · rw [if_neg hk] at h
      exact Except.noConfusion h

/-- C8: `fetch_vix_series` raises the invalid-argument error for every
`vix_type` outside the three recognized values — without consulting the
download collaborator (the result is the same for any two collaborators) —
and for recognized values downloads the fixed mapped ticker over the
series' date range. -/
theorem fetch_vix_series_spec
    (download download₂ : String → String → String → List (Nat × ℚ))
    (dateStr : Nat → String) (data : List (Nat × ℚ)) (vt : String) :
    (vt ≠ "regular" → vt ≠ "vix9d" → vt ≠ "vix1d" →
      fetch_vix_series download dateStr data vt =
        Except.error "Invalid vix_type. Choose from regular, vix9d, or vix1d."
      ∧ fetch_vix_series download dateStr data vt =
        fetch_vix_series download₂ dateStr data vt)
    ∧ fetch_vix_series download dateStr data "regular" =
      Except.ok (download "^VIX" (dateStr (minKey data)) (dateStr (maxKey data)))
    ∧ fetch_vix_series download dateStr data "vix9d" =
      Except.ok (download "^VIX9D" (dateStr (minKey data)) (dateStr (maxKey data)))
    ∧ fetch_vix_series download dateStr data "vix1d" =
      Except.ok (download "^VIX1D" (dateStr (minKey data)) (dateStr (maxKey data))) := by
  refine ⟨?_, ?_, ?_, ?_⟩
  · intro h1 h2 h3
    have b1 : (vt == "regular") = false := beq_eq_false_iff_ne.mpr h1
    have b2 : (vt == "vix9d") = false := beq_eq_false_iff_ne.mpr h2
    have b3 : (vt == "vix1d") = false := beq_eq_false_iff_ne.mpr h3
    have hl : vixTickerMap.lookup vt = none := by
      simp [vixTickerMap, List.lookup, b1, b2, b3]
    constructor <;> simp [fetch_vix_series, hl]
  · rfl
  · rfl
  · rfl

theorem innerJoin_keys_subset_left (a b : List (Nat × ℚ)) :
    ((innerJoin a b).map Prod.fst) ⊆ a.map Prod.fst := by
  induction a, b using innerJoin.induct with
  | case1 b => simp [innerJoin]
  | case2 p as => simp [innerJoin]
  | case3 t₁ x as t₂ y bs h ih =>
    simp only [innerJoin, if_pos h]
    intro t ht
    exact List.mem_cons_of_mem _ (ih ht)
  | case4 t₁ x as t₂ y bs h h2 ih =>
    simp only [innerJoin, if_neg h, if_pos h2]
    exact ih
  | case5 t₁ x as t₂ y bs h h2 ih =>
    simp only [innerJoin, if_neg h, if_neg h2]
    intro t ht
    rcases ht with _ | ht
    · exact List.mem_cons_self _ _
    · next ht => exact List.mem_cons_of_mem _ (ih ht)

theorem innerJoin_keys_subset_right (a b : List (Nat × ℚ)) :
    ((innerJoin a b).map Prod.fst) ⊆ b.map Prod.fst := by
  induction a, b using innerJoin.induct with
  | case1 b => simp [innerJoin]
  | case2 p as => simp [innerJoin]
  | case3 t₁ x as t₂ y bs h ih =>
    simp only [innerJoin, if_pos h]
    exact ih
  | case4 t₁ x as t₂ y bs h h2 ih =>
    simp only [innerJoin, if_neg h, if_pos h2]
    intro t ht
    exact List.mem_cons_of_mem _ (ih ht)
  | case5 t₁ x as t₂ y bs h h2 ih =>
    have heq : t₁ = t₂ := le_antisymm (Nat.not_lt.mp h2) (Nat.not_lt.mp h)
    subst heq
    simp only [innerJoin, if_neg h, if_neg h2]
    intro t ht
    rcases ht with _ | ht
    · exact List.mem_cons_self _ _
    · next ht => exact List.mem_cons_of_mem _ (ih ht)

theorem innerJoin_mem_keys (a b : List (Nat × ℚ))
    (ha : List.Sorted (· < ·) (a.map Prod.fst))
    (hb : List.Sorted (· < ·) (b.map Prod.fst)) (t : Nat) :
    t ∈ (innerJoin a b).map Prod.fst ↔
      t ∈ a.map Prod.fst ∧ t ∈ b.map Prod.fst := by
  induction a, b using innerJoin.induct with
  | case1 b => simp [innerJoin]
  | case2 p as => simp [innerJoin]
  | case3 t₁ x as t₂ y bs h ih =>
    simp only [List.map_cons, List.sorted_cons] at ha
    have hiff := ih ha.2 hb
    simp only [innerJoin, if_pos h]
    rw [hiff]
    constructor
    · rintro ⟨h1, h2⟩
      exact ⟨List.mem_cons_of_mem _ h1, h2⟩
    · rintro ⟨h1, h2⟩
      refine ⟨?_, h2⟩
      rcases List.mem_cons.mp h1 with rfl | h1
      · exfalso
        simp only [List.map_cons, List.sorted_cons] at hb
        rcases List.mem_cons.mp h2 with rfl | h2
        · exact lt_irrefl _ h
        · exact lt_irrefl _ (lt_trans h (hb.1 _ h2))
      · exact h1
  | case4 t₁ x as t₂ y bs h h2 ih =>
    simp only [List.map_cons, List.sorted_cons] at hb
    have hiff := ih ha hb.2
    simp only [innerJoin, if_neg h, if_pos h2]
    rw [hiff]
    constructor
    · rintro ⟨h1, h3⟩
      exact ⟨h1, List.mem_cons_of_mem _ h3⟩
    · rintro ⟨h1, h3⟩
      refine ⟨h1, ?_⟩
      rcases List.mem_cons.mp h3 with rfl | h3
      · exfalso
        simp only [List.map_cons, List.sorted_cons] at ha
        rcases List.mem_cons.mp h1 with rfl | h1
        · exact lt_irrefl _ h2
        · exact lt_irrefl _ (lt_trans h2 (ha.1 _ h1))
      · exact h3
  | case5 t₁ x as t₂ y bs h h2 ih =>
    have heq : t₁ = t₂ := le_antisymm (Nat.not_lt.mp h2) (Nat.not_lt.mp h)
    subst heq
    simp only [List.map_cons, List.sorted_cons] at ha hb
    have hiff := ih ha.2 hb.2
    simp only [innerJoin, if_neg h, if_neg h2, List.map_cons]
    constructor
    · intro hmem
      rcases List.mem_cons.mp hmem with rfl | hmem
      · exact ⟨List.mem_cons_self _ _, List.mem_cons_self _ _⟩
      · rcases hiff.mp hmem with ⟨h1, h3⟩
        exact ⟨List.mem_cons_of_mem _ h1, List.mem_cons_of_mem _ h3⟩
    · rintro ⟨h1, h3⟩
      by_cases hx : t = t₁
      · subst hx
        exact List.mem_cons_self _ _
      · have h1m : t ∈ as.map Prod.fst := by
          rcases List.mem_cons.mp h1 with he | hm
          · exact absurd he hx
          · exact hm
        have h3m : t ∈ bs.map Prod.fst := by
          rcases List.mem_cons.mp h3 with he | hm
          · exact absurd he hx
          · exact hm
        exact List.mem_cons_of_mem _ (hiff.mpr ⟨h1m, h3m⟩)

theorem innerJoin_keys_sorted (a b : List (Nat × ℚ))
    (ha : List.Sorted (· < ·) (a.map Prod.fst))
    (hb : List.Sorted (· < ·) (b.map Prod.fst)) :
    List.Sorted (· < ·) ((innerJoin a b).map Prod.fst) := by
  induction a, b using innerJoin.induct with
  | case1 b => simp [innerJoin]
  | case2 p as => simp [innerJoin]
  | case3 t₁ x as t₂ y bs h ih =>
    simp only [List.map_cons, List.sorted_cons] at ha
    simp only [innerJoin, if_pos h]
    exact ih ha.2 hb
  | case4 t₁ x as t₂ y bs h h2 ih =>
    simp only [List.map_cons, List.sorted_cons] at hb
    simp only [innerJoin, if_neg h, if_pos h2]
    exact ih ha hb.2
  | case5 t₁ x as t₂ y bs h h2 ih =>
    simp only [List.map_cons, List.sorted_cons] at ha hb
    simp only [innerJoin, if_neg h, if_neg h2, List.map_cons,
      List.sorted_cons]
    refine ⟨?_, ih ha.2 hb.2⟩
    intro t ht
    exact ha.1 _ (innerJoin_keys_subset_left as bs ht)

theorem innerJoin_length_card (a b : List (Nat × ℚ))
    (ha : List.Sorted (· < ·) (a.map Prod.fst))
    (hb : List.Sorted (· < ·) (b.map Prod.fst)) :
    (innerJoin a b).length =
      ((a.map Prod.fst).toFinset ∩ (b.map Prod.fst).toFinset).card := by
  have hnd : ((innerJoin a b).map Prod.fst).Nodup :=
    (innerJoin_keys_sorted a b ha hb).nodup
  have hset : ((innerJoin a b).map Prod.fst).toFinset =
      (a.map Prod.fst).toFinset ∩ (b.map Prod.fst).toFinset := by
    ext t
    rw [List.mem_toFinset, Finset.mem_inter, List.mem_toFinset,
      List.mem_toFinset]
    exact innerJoin_mem_keys a b ha hb t
  calc (innerJoin a b).length = ((innerJoin a b).map Prod.fst).length := by
        rw [List.length_map]
    _ = ((innerJoin a b).map Prod.fst).toFinset.card :=
        (List.toFinset_card_of_nodup hnd).symm
    _ = _ := by rw [hset]

/-- C3: `align_with` returns the inner join on the timestamp intersection:
columns named exactly `"Series1"` and `"Series2"`, rows ordered by
timestamp ascending, and a row count equal to the cardinality of the
intersection of the two timestamp sets. -/
theorem align_with_spec (a b : List (Nat × ℚ))
    (ha : List.Sorted (· < ·) (a.map Prod.fst))
    (hb : List.Sorted (· < ·) (b.map Prod.fst)) :
    (align_with a b).col1 = "Series1"
    ∧ (align_with a b).col2 = "Series2"
    ∧ List.Sorted (· < ·) ((align_with a b).rows.map Prod.fst)
    ∧ (∀ t : Nat, t ∈ (align_with a b).rows.map Prod.fst ↔
        t ∈ a.map Prod.fst ∧ t ∈ b.map Prod.fst)
    ∧ (align_with a b).rows.length =
      ((a.map Prod.fst).toFinset ∩ (b.map Prod.fst).toFinset).card :=
  ⟨rfl, rfl, innerJoin_keys_sorted a b ha hb,
    innerJoin_mem_keys a b ha hb, innerJoin_length_card a b ha hb⟩

/-- C3, discharged at a concrete pair of sorted series. -/
theorem align_with_spec_witness :
    (align_with [(0, (1 : ℚ)), (1, 2), (2, 3)] [(1, (5 : ℚ)), (3, 7)]).col1 =
      "Series1"
    ∧ (align_with [(0, (1 : ℚ)), (1, 2), (2, 3)]
        [(1, (5 : ℚ)), (3, 7)]).col2 = "Series2"
    ∧ List.Sorted (· < ·) ((align_with [(0, (1 : ℚ)), (1, 2), (2, 3)]
        [(1, (5 : ℚ)), (3, 7)]).rows.map Prod.fst)
    ∧ (∀ t : Nat, t ∈ (align_with [(0, (1 : ℚ)), (1, 2), (2, 3)]
          [(1, (5 : ℚ)), (3, 7)]).rows.map Prod.fst ↔
        t ∈ [(0, (1 : ℚ)), (1, 2), (2, 3)].map Prod.fst ∧
          t ∈ [(1, (5 : ℚ)), (3, 7)].map Prod.fst)
    ∧ (align_with [(0, (1 : ℚ)), (1, 2), (2, 3)]
        [(1, (5 : ℚ)), (3, 7)]).rows.length =
      (([(0, (1 : ℚ)), (1, 2), (2, 3)].map Prod.fst).toFinset ∩
        ([(1, (5 : ℚ)), (3, 7)].map Prod.fst).toFinset).card :=
  align_with_spec [(0, (1 : ℚ)), (1, 2), (2, 3)] [(1, (5 : ℚ)), (3, 7)]
    (by decide) (by decide)

theorem innerJoin_swap (a b : List (Nat × ℚ)) :
    innerJoin b a =
      (innerJoin a b).map (fun r => (r.1, r.2.2, r.2.1)) := by
  induction a, b using innerJoin.induct with
  | case1 c => cases c <;> simp [innerJoin]
  | case2 p as => simp [innerJoin]
  | case3 t₁ x as t₂ y bs h ih =>
    simp only [innerJoin, if_pos h, if_neg (lt_asymm h)]
    exact ih
  | case4 t₁ x as t₂ y bs h h2 ih =>
    simp only [innerJoin, if_pos h2, if_neg h]
    exact ih
  | case5 t₁ x as t₂ y bs h h2 ih =>
    have heq : t₁ = t₂ := le_antisymm (Nat.not_lt.mp h2) (Nat.not_lt.mp h)
    subst heq
    simp only [innerJoin, if_neg h, if_neg h2, List.map_cons]
    rw [ih]

theorem col1Of_align_swap (a b : List (Nat × ℚ)) :
    col1Of (align_with b a) = col2Of (align_with a b) := by
  show ((innerJoin b a).map fun r => r.2.1) = _
  rw [innerJoin_swap, List.map_map]
  rfl

theorem col2Of_align_swap (a b : List (Nat × ℚ)) :
    col2Of (align_with b a) = col1Of (align_with a b) := by
  show ((innerJoin b a).map fun r => r.2.2) = _
  rw [innerJoin_swap, List.map_map]
  rfl

theorem covSum_comm (xs ys : List ℚ) : covSum xs ys = covSum ys xs := by
  unfold covSum
  rw [← List.zip_swap (centered xs) (centered ys), List.map_map]
  apply congrArg List.sum
  apply List.map_congr_left
  intro p _
  exact mul_comm _ _

theorem sum_sq_nonneg (l : List ℚ) : 0 ≤ (l.map (fun d => d ^ 2)).sum := by
  apply List.sum_nonneg
  intro x hx
  rcases List.mem_map.mp hx with ⟨d, _, rfl⟩
  exact sq_nonneg d

theorem list_cauchy_schwarz (l : List (ℚ × ℚ)) :
    ((l.map fun p => p.1 * p.2).sum) ^ 2 ≤
      ((l.map fun p => p.1 ^ 2).sum) * ((l.map fun p => p.2 ^ 2).sum) := by
  induction l with
  | nil => simp
  | cons q l ih =>
    obtain ⟨a, b⟩ := q
    simp only [List.map_cons, List.sum_cons]
    have hA : 0 ≤ (l.map fun p => p.1 ^ 2).sum := by
      apply List.sum_nonneg
      intro x hx
      rcases List.mem_map.mp hx with ⟨p, _, rfl⟩
      exact sq_nonneg _
    have hB : 0 ≤ (l.map fun p => p.2 ^ 2).sum := by
      apply List.sum_nonneg
      intro x hx
      rcases List.mem_map.mp hx with ⟨p, _, rfl⟩
      exact sq_nonneg _
    rcases eq_or_lt_of_le hA with hA0 | hA0
    · have hS2 : ((l.map fun p => p.1 * p.2).sum) ^ 2 ≤ 0 := by
        calc ((l.map fun p => p.1 * p.2).sum) ^ 2 ≤ _ := ih
          _ = 0 := by rw [← hA0, zero_mul]
      have hS : (l.map fun p => p.1 * p.2).sum = 0 :=
        pow_eq_zero_iff two_ne_zero |>.mp
          (le_antisymm hS2 (sq_nonneg _))
      rw [hS, ← hA0]
      nlinarith [mul_nonneg (sq_nonneg a) hB, sq_nonneg b]
    · nlinarith [sq_nonneg (a * (l.map fun p => p.1 * p.2).sum -
        b * (l.map fun p => p.1 ^ 2).sum),
        mul_nonneg (le_of_lt hA0) hB, sq_nonneg a, sq_nonneg b,
        mul_nonneg (sq_nonneg a)
          (sub_nonneg.mpr ih)]

theorem varSum_nonneg (xs : List ℚ) : 0 ≤ varSum xs :=
  sum_sq_nonneg _

theorem covSum_sq_le (xs ys : List ℚ) (hlen : xs.length = ys.length) :
    (covSum xs ys) ^ 2 ≤ varSum xs * varSum ys := by
  have hcx : (centered xs).length = (centered ys).length := by
    simp [centered, hlen]
  have h1 : (((centered xs).zip (centered ys)).map fun p => p.1 ^ 2) =
      (centered xs).map (fun d => d ^ 2) := by
    have e : (fun p : ℚ × ℚ => p.1 ^ 2) = (fun d => d ^ 2) ∘ Prod.fst := rfl
    rw [e, ← List.map_map, List.map_fst_zip _ _ (le_of_eq hcx)]
  have h2 : (((centered xs).zip (centered ys)).map fun p => p.2 ^ 2) =
      (centered ys).map (fun d => d ^ 2) := by
    have e : (fun p : ℚ × ℚ => p.2 ^ 2) = (fun d => d ^ 2) ∘ Prod.snd := rfl
    rw [e, ← List.map_map, List.map_snd_zip _ _ (ge_of_eq hcx)]
  have := list_cauchy_schwarz ((centered xs).zip (centered ys))
  rw [h1, h2] at this
  exact this

theorem varSum_of_length_le_one (xs : List ℚ) (h : xs.length ≤ 1) :
    varSum xs = 0 := by
  rcases xs with _ | ⟨x, _ | ⟨y, l⟩⟩
  · rfl
  · simp [varSum, centered, colMean]
  · simp at h

/-- C4: `compute_correlation` is symmetric; whenever it is defined its
value lies in `[-1, 1]`; and it is undefined (`NaN`, embedded `none`)
exactly when an aligned column has zero variance or the aligned table has
fewer than 2 rows (fewer than 2 rows forces zero variance). -/
theorem compute_correlation_spec (a b : List (Nat × ℚ)) :
    compute_correlation a b = compute_correlation b a
    ∧ (∀ r : ℝ, compute_correlation a b = some r → -1 ≤ r ∧ r ≤ 1)
    ∧ (compute_correlation a b = none ↔
        ((align_with a b).rows.length < 2
          ∨ varSum (col1Of (align_with a b)) = 0
          ∨ varSum (col2Of (align_with a b)) = 0)) := by
  refine ⟨?_, ?_, ?_⟩
  · unfold compute_correlation
    rw [col1Of_align_swap a b, col2Of_align_swap a b]
    by_cases hx : varSum (col1Of (align_with a b)) = 0 ∨
        varSum (col2Of (align_with a b)) = 0
    · rw [if_pos hx, if_pos (Or.symm hx)]
    · rw [if_neg hx, if_neg (fun hc => hx (Or.symm hc))]
      rw [covSum_comm (col2Of (align_with a b)) (col1Of (align_with a b)),
        mul_comm ((varSum (col2Of (align_with a b)) : ℝ))
          ((varSum (col1Of (align_with a b)) : ℝ))]
  · intro r hr
    unfold compute_correlation at hr
    by_cases hx : varSum (col1Of (align_with a b)) = 0 ∨
        varSum (col2Of (align_with a b)) = 0
    · rw [if_pos hx] at hr
      exact absurd hr (by simp)
    · rw [if_neg hx] at hr
      rcases Option.some.inj hr with rfl
      push_neg at hx
      have hxq : 0 < varSum (col1Of (align_with a b)) :=
        lt_of_le_of_ne (varSum_nonneg _) (Ne.symm hx.1)
      have hyq : 0 < varSum (col2Of (align_with a b)) :=
        lt_of_le_of_ne (varSum_nonneg _) (Ne.symm hx.2)
      have hlen : (col1Of (align_with a b)).length =
          (col2Of (align_with a b)).length := by
        simp [col1Of, col2Of]
      have hcs := covSum_sq_le _ _ hlen
      have hcsR : ((covSum (col1Of (align_with a b))
            (col2Of (align_with a b)) : ℝ)) ^ 2 ≤
          ((varSum (col1Of (align_with a b)) : ℝ)) *
            ((varSum (col2Of (align_with a b)) : ℝ)) := by
        exact_mod_cast hcs
      have hprod : (0 : ℝ) < (varSum (col1Of (align_with a b)) : ℝ) *
          (varSum (col2Of (align_with a b)) : ℝ) :=
        mul_pos (by exact_mod_cast hxq) (by exact_mod_cast hyq)
      have habs : |(covSum (col1Of (align_with a b))
            (col2Of (align_with a b)) : ℝ)| ≤
          Real.sqrt ((varSum (col1Of (align_with a b)) : ℝ) *
            (varSum (col2Of (align_with a b)) : ℝ)) := by
        rw [← Real.sqrt_sq_eq_abs]
        exact Real.sqrt_le_sqrt hcsR
      have hone : |(covSum (col1Of (align_with a b))
            (col2Of (align_with a b)) : ℝ) /
          Real.sqrt ((varSum (col1Of (align_with a b)) : ℝ) *
            (varSum (col2Of (align_with a b)) : ℝ))| ≤ 1 := by
        rw [abs_div, abs_of_nonneg (Real.sqrt_nonneg _)]
        exact div_le_one_of_le₀ habs (Real.sqrt_nonneg _)
      exact abs_le.mp hone
  · unfold compute_correlation
    by_cases hx : varSum (col1Of (align_with a b)) = 0 ∨
        varSum (col2Of (align_with a b)) = 0
    · rw [if_pos hx]
      exact iff_of_true rfl (Or.inr hx)
    · rw [if_neg hx]
      apply iff_of_false
      · simp
      · rintro (hlen | hv)
        · apply hx
          left
          apply varSum_of_length_le_one
          have he : (col1Of (align_with a b)).length =
              (align_with a b).rows.length := by
            simp [col1Of]
          omega
        · exact hx hv

theorem list_toFinset_map_image {α β : Type} [DecidableEq α] [DecidableEq β]
    (l : List α) (f : α → β) :
    (l.map f).toFinset = l.toFinset.image f := by
  ext x
  simp [List.mem_toFinset, List.mem_map, Finset.mem_image]

theorem count_beq_bridge {α : Type} [BEq α] [LawfulBEq α] [DecidableEq α]
    (l : List α) (a : α) :
    l.count a = @List.count α instBEqOfDecidableEq a l := by
  induction l with
  | nil => rfl
  | cons q l ih =>
    rw [List.count_cons, @List.count_cons α instBEqOfDecidableEq, ih]
    by_cases h : q = a
    · subst h
      simp
    · simp [h]

theorem count_map_swap (l : List (ℕ × ℕ)) (p : ℕ × ℕ) :
    (l.map Prod.swap).count (Prod.swap p) = l.count p := by
  induction l with
  | nil => rfl
  | cons q l ih =>
    simp only [List.map_cons, List.count_cons, ih]
    by_cases h : q = p
    · subst h
      simp
    · simp [h, fun hc => h (Prod.swap_injective hc)]

theorem mutualInfoScore_swap_map (l : List (ℕ × ℕ)) :
    mutualInfoScore (l.map Prod.swap) = mutualInfoScore l := by
  unfold mutualInfoScore
  rw [list_toFinset_map_image, List.length_map,
    Finset.sum_image (by intro x _ y _ hxy; exact Prod.swap_injective hxy)]
  apply Finset.sum_congr rfl
  intro p _
  have hc : (l.map Prod.swap).count (Prod.swap p) = l.count p :=
    count_map_swap l p
  have hf : (l.map Prod.swap).map Prod.fst = l.map Prod.snd := by
    rw [List.map_map]
    rfl
  have hs : (l.map Prod.swap).map Prod.snd = l.map Prod.fst := by
    rw [List.map_map]
    rfl
  rw [hc, hf, hs, Prod.fst_swap, Prod.snd_swap,
    mul_comm (((l.map Prod.snd).count p.2 : ℝ))
      (((l.map Prod.fst).count p.1 : ℝ))]

theorem mutualInfoScore_nonneg (l : List (ℕ × ℕ)) : 0 ≤ mutualInfoScore l := by
  rcases eq_or_ne l [] with rfl | hl
  · simp [mutualInfoScore]
  · have hn : 0 < l.length := List.length_pos.mpr hl
    have hnR : (0 : ℝ) < (l.length : ℝ) := by exact_mod_cast hn
    have key : ∀ p ∈ l.toFinset,
        -(((l.count p : ℝ) / (l.length : ℝ)) *
          Real.log (((l.length : ℝ) * (l.count p : ℝ)) /
            (((l.map Prod.fst).count p.1 : ℝ) *
              ((l.map Prod.snd).count p.2 : ℝ)))) ≤
        ((l.map Prod.fst).count p.1 : ℝ) *
            ((l.map Prod.snd).count p.2 : ℝ) /
            ((l.length : ℝ) * (l.length : ℝ)) -
          (l.count p : ℝ) / (l.length : ℝ) := by
      intro p hp
      have hpm : p ∈ l := List.mem_toFinset.mp hp
      have hcp : (0 : ℝ) < (l.count p : ℝ) := by
        exact_mod_cast List.count_pos_iff.mpr hpm
      have hap : (0 : ℝ) < ((l.map Prod.fst).count p.1 : ℝ) := by
        exact_mod_cast List.count_pos_iff.mpr (List.mem_map_of_mem Prod.fst hpm)
      have hbp : (0 : ℝ) < ((l.map Prod.snd).count p.2 : ℝ) := by
        exact_mod_cast List.count_pos_iff.mpr (List.mem_map_of_mem Prod.snd hpm)
      have harg : (0 : ℝ) <
          (((l.map Prod.fst).count p.1 : ℝ) *
            ((l.map Prod.snd).count p.2 : ℝ)) /
            ((l.length : ℝ) * (l.count p : ℝ)) := by positivity
      have hneg : -(((l.count p : ℝ) / (l.length : ℝ)) *
          Real.log (((l.length : ℝ) * (l.count p : ℝ)) /
            (((l.map Prod.fst).count p.1 : ℝ) *
              ((l.map Prod.snd).count p.2 : ℝ)))) =
          ((l.count p : ℝ) / (l.length : ℝ)) *
          Real.log ((((l.map Prod.fst).count p.1 : ℝ) *
              ((l.map Prod.snd).count p.2 : ℝ)) /
            ((l.length : ℝ) * (l.count p : ℝ))) := by
        rw [← mul_neg, ← Real.log_inv, inv_div]
      rw [hneg]
      have hx : (0 : ℝ) ≤ (l.count p : ℝ) / (l.length : ℝ) := by positivity
      calc ((l.count p : ℝ) / (l.length : ℝ)) *
            Real.log ((((l.map Prod.fst).count p.1 : ℝ) *
                ((l.map Prod.snd).count p.2 : ℝ)) /
              ((l.length : ℝ) * (l.count p : ℝ)))
          ≤ ((l.count p : ℝ) / (l.length : ℝ)) *
            ((((l.map Prod.fst).count p.1 : ℝ) *
                ((l.map Prod.snd).count p.2 : ℝ)) /
              ((l.length : ℝ) * (l.count p : ℝ)) - 1) :=
            mul_le_mul_of_nonneg_left (Real.log_le_sub_one_of_pos harg) hx
        _ = ((l.map Prod.fst).count p.1 : ℝ) *
              ((l.map Prod.snd).count p.2 : ℝ) /
              ((l.length : ℝ) * (l.length : ℝ)) -
            (l.count p : ℝ) / (l.length : ℝ) := by
            field_simp
            ring
    have hsumc : ∑ p in l.toFinset, (l.count p : ℝ) / (l.length : ℝ) = 1 := by
      have hc : ∑ p in l.toFinset, (l.count p : ℝ) = (l.length : ℝ) := by
        have h0 : ∑ p in l.toFinset, l.count p = l.length := by
          rw [Finset.sum_congr rfl (fun p _ => count_beq_bridge l p)]
          exact List.sum_toFinset_count_eq_length l
        exact_mod_cast h0
      rw [← Finset.sum_div, hc, div_self hnR.ne']
    have hsumab : ∑ p in l.toFinset,
        ((l.map Prod.fst).count p.1 : ℝ) * ((l.map Prod.snd).count p.2 : ℝ) ≤
        (l.length : ℝ) * (l.length : ℝ) := by
      have hsub : l.toFinset ⊆
          (l.map Prod.fst).toFinset ×ˢ (l.map Prod.snd).toFinset := by
        intro p hp
        have hpm := List.mem_toFinset.mp hp
        rw [Finset.mem_product]
        exact ⟨List.mem_toFinset.mpr (List.mem_map_of_mem Prod.fst hpm),
          List.mem_toFinset.mpr (List.mem_map_of_mem Prod.snd hpm)⟩
      have hfst : ∑ i in (l.map Prod.fst).toFinset,
          ((l.map Prod.fst).count i : ℝ) = (l.length : ℝ) := by
        have h0 : ∑ i in (l.map Prod.fst).toFinset, (l.map Prod.fst).count i =
            l.length := by
          rw [Finset.sum_congr rfl
            (fun i _ => count_beq_bridge (l.map Prod.fst) i)]
          rw [List.sum_toFinset_count_eq_length, List.length_map]
        exact_mod_cast h0
      have hsnd : ∑ j in (l.map Prod.snd).toFinset,
          ((l.map Prod.snd).count j : ℝ) = (l.length : ℝ) := by
        have h0 : ∑ j in (l.map Prod.snd).toFinset, (l.map Prod.snd).count j =
            l.length := by
          rw [Finset.sum_congr rfl
            (fun j _ => count_beq_bridge (l.map Prod.snd) j)]
          rw [List.sum_toFinset_count_eq_length, List.length_map]
        exact_mod_cast h0
      calc ∑ p in l.toFinset,
            ((l.map Prod.fst).count p.1 : ℝ) *
              ((l.map Prod.snd).count p.2 : ℝ)
          ≤ ∑ p in (l.map Prod.fst).toFinset ×ˢ (l.map Prod.snd).toFinset,
            ((l.map Prod.fst).count p.1 : ℝ) *
              ((l.map Prod.snd).count p.2 : ℝ) :=
            Finset.sum_le_sum_of_subset_of_nonneg hsub
              (by intro p _ _; positivity)
        _ = (∑ i in (l.map Prod.fst).toFinset,
              ((l.map Prod.fst).count i : ℝ)) *
            (∑ j in (l.map Prod.snd).toFinset,
              ((l.map Prod.snd).count j : ℝ)) := by
            rw [Finset.sum_mul_sum]
            rw [Finset.sum_product]
        _ = (l.length : ℝ) * (l.length : ℝ) := by rw [hfst, hsnd]
    have hchain : -(mutualInfoScore l) ≤ 0 := by
      unfold mutualInfoScore
      rw [← Finset.sum_neg_distrib]
      calc ∑ p in l.toFinset,
            -(((l.count p : ℝ) / (l.length : ℝ)) *
              Real.log (((l.length : ℝ) * (l.count p : ℝ)) /
                (((l.map Prod.fst).count p.1 : ℝ) *
                  ((l.map Prod.snd).count p.2 : ℝ))))
          ≤ ∑ p in l.toFinset,
            (((l.map Prod.fst).count p.1 : ℝ) *
                ((l.map Prod.snd).count p.2 : ℝ) /
                ((l.length : ℝ) * (l.length : ℝ)) -
              (l.count p : ℝ) / (l.length : ℝ)) := Finset.sum_le_sum key
        _ = (∑ p in l.toFinset,
              ((l.map Prod.fst).count p.1 : ℝ) *
                ((l.map Prod.snd).count p.2 : ℝ)) /
              ((l.length : ℝ) * (l.length : ℝ)) - 1 := by
            rw [Finset.sum_sub_distrib, hsumc, Finset.sum_div]
        _ ≤ 0 := by
            have hd : (∑ p in l.toFinset,
                ((l.map Prod.fst).count p.1 : ℝ) *
                  ((l.map Prod.snd).count p.2 : ℝ)) /
                ((l.length : ℝ) * (l.length : ℝ)) ≤ 1 := by
              rw [div_le_one (by positivity)]
              exact hsumab
            linarith
    linarith

/-- C5: `compute_mutual_information` is symmetric in its two series and
non-negative for every bin count ≥ 2; the binning is applied per column by
`binColumn` (each aligned column discretized independently over its own
min/max range) and only the scalar value is returned. -/
theorem compute_mutual_information_spec (a b : List (Nat × ℚ)) (bins : ℕ)
    (hbins : 2 ≤ bins) :
    compute_mutual_information a b bins = compute_mutual_information b a bins
    ∧ 0 ≤ compute_mutual_information a b bins := by
  constructor
  · unfold compute_mutual_information
    rw [col1Of_align_swap a b, col2Of_align_swap a b,
      ← List.zip_swap (binColumn bins (col1Of (align_with a b)))
        (binColumn bins (col2Of (align_with a b)))]
    exact (mutualInfoScore_swap_map _).symm
  · exact mutualInfoScore_nonneg _

/-- C5, discharged at a concrete pair of series and the default bin
count. -/
theorem compute_mutual_information_spec_witness :
    compute_mutual_information [(0, (1 : ℚ)), (1, 2)] [(0, (3 : ℚ)), (1, 4)]
        10 =
      compute_mutual_information [(0, (3 : ℚ)), (1, 4)]
        [(0, (1 : ℚ)), (1, 2)] 10
    ∧ 0 ≤ compute_mutual_information [(0, (1 : ℚ)), (1, 2)]
        [(0, (3 : ℚ)), (1, 4)] 10 :=
  compute_mutual_information_spec [(0, (1 : ℚ)), (1, 2)]
    [(0, (3 : ℚ)), (1, 4)] 10 (by norm_num)

/-- C9: every method, embedded as a state transformer over the receiver's
(and the other argument's) series, returns the state unchanged: the Python
bodies assign only to locals, never to `self.data` or `other.data`, and
the transforming operations build their result as a fresh value from the
inputs (`resample` returns the external mean-resampling of the receiver's
data wrapped in a new instance). -/
theorem methods_preserve_state (s : MethodState) (bins : ℕ)
    (rule date vix_type : String)
    (resampleMean : String → List (Nat × ℚ) → List (Nat × ℚ))
    (download₁ : String → String → String → List (Nat × ℚ))
    (download₂ : String → String → Option ℚ)
    (dateStr : Nat → String) (ts : List ℚ) :
    (align_with_st s).2 = s
    ∧ (compute_correlation_st s).2 = s
    ∧ (compute_mutual_information_st s bins).2 = s
    ∧ (resample_st resampleMean s rule).2 = s
    ∧ (resample_st resampleMean s rule).1 = resampleMean rule s.selfData
    ∧ (fetch_vix_series_st download₁ dateStr s vix_type).2 = s
    ∧ (vix_futures_term_structure_st download₂ s date).2 = s
    ∧ (term_structure_type_st s ts).2 = s
    ∧ (generate_vix_term_structure_series_st download₂ dateStr s).2 = s :=
  ⟨rfl, rfl, rfl, rfl, rfl, rfl, rfl, rfl, rfl⟩
